import Mathlib

/-!
Shallow embedding of `third_party/intel/lib/TritonIntelGPUToLLVM/PrintOpToLLVM.cpp`
(struct `PrintOpConversion`): the print-request formatting engine that builds
`printf`-style format strings and argument lists for the Triton `tt.print`
lowering.  MLIR `Value`s are modelled as a scalar type tag plus an identifier;
the external collaborators (`unpackLLElements`, `emitIndices`, `llGetPid`,
`addStringToModule`, `llPrintf`) are modelled as supplied inputs and as an
emission record, exactly as the C++ consumes them.
-/

/-- Closed variant of the scalar element types the conversion can print,
mirroring the type queries in `getFormatSubstr` (`LLVM::LLVMPointerType`,
`isBF16/isF16/isF32/isF64`, `isSignedInteger`, `isUnsignedInteger`,
`isSignlessInteger`). -/
inductive CType where
  | ptr
  | bf16
  | f16
  | f32
  | f64
  | signedInt (w : Nat)
  | unsignedInt (w : Nat)
  | signlessInt (w : Nat)
deriving DecidableEq

/-- `Type::getIntOrFloatBitWidth()`.  Never consulted for pointers (the C++
returns `"%p"` before querying the width), so the value at `ptr` is arbitrary. -/
def bitWidth : CType → Nat
  | .ptr => 0
  | .bf16 => 16
  | .f16 => 16
  | .f32 => 32
  | .f64 => 64
  | .signedInt w => w
  | .unsignedInt w => w
  | .signlessInt w => w

/-- Model of an MLIR `Value`: its scalar type together with an identity, so
that distinct values of the same type stay distinguishable in argument lists. -/
structure Val where
  ty : CType
  id : Nat
deriving DecidableEq

/-- The `"%"`-plus-optional-decimal-width opening built at the start of the
non-hex branch of `getFormatSubstr` (`std::string prefix = "%"; if
(width.has_value()) prefix += std::to_string(*width);`). -/
def widthPfx (width : Option Nat) : String :=
  "%" ++ (match width with
    | some w => Nat.repr w
    | none => "")

/-- `PrintOpConversion::getFormatSubstr` (lines 171-217): maps a value's type,
a hex flag and an optional field width to its conversion specifier.  The C++
`else if (hex)` inside the prefix construction is dead (hex already returned)
and the trailing `assert(false)` arm is unreachable on the closed variant. -/
def getFormatSubstr (ty : CType) (hex : Bool := false)
    (width : Option Nat := none) : String :=
  if ty = CType.ptr then "%p"
  else if hex then
    -- "0x%0nx" or "0x%0nllx", n = number of hex digits of the type
    "0x%0" ++ Nat.repr (bitWidth ty / 4) ++
      (if 32 < bitWidth ty then "ll" else "") ++ "x"
  else
    match ty with
    | .ptr => "%p"
    | .bf16 | .f16 | .f32 | .f64 => widthPfx width ++ "f"
    | .signedInt w => widthPfx width ++ (if w = 64 then "lli" else "i")
    | .unsignedInt w => widthPfx width ++ (if w = 64 then "llu" else "u")
    | .signlessInt w => widthPfx width ++ (if w = 64 then "llu" else "u")

/-- Per-dimension decimal width (lines 61-67):
`dim > 0 ? (int)std::ceil(std::log10(dim)) : 0`.  The double-precision
`std::log10` is modelled as the exact real logarithm; for a positive integer
`d` the ceiling of `log10 d` is `Nat.clog 10 d`. -/
def dimWidth (d : Int) : Nat :=
  if 0 < d then Nat.clog 10 d.toNat else 0

/-- `kMaxPrintfOperands` (line 110): nvptx printf accepts at most 32 args. -/
def kMaxPrintfOperands : Nat := 32

/-- `maxAllowedRank` (line 129): the argument budget left for index
components after the 3 pid values and before the 2 trailing operands
(`kMaxPrintfOperands - printfOperands.size() - 2` with 3 pids pushed). -/
def maxAllowedRank : Nat := kMaxPrintfOperands - 3 - 2

/-- Iterations `dim = 1, 2, ...` of the index loop (lines 133-144), carrying
`remaining = maxAllowedRank - dim` truncation budget: each step prints the
`", "` separator, then either the truncation marker (budget exhausted, loop
breaks) or the width-padded specifier for the coordinate, which is also
pushed onto the argument list. -/
def idxTail : Nat → List Val → List Nat → String × List Val
  | _, [], _ => ("", [])
  | 0, _ :: _, _ => (", ... (truncated)", [])
  | r + 1, v :: rest, ws =>
    (", " ++ getFormatSubstr v.ty false (some (ws.headD 0)) ++
       (idxTail r rest ws.tail).1,
     v :: (idxTail r rest ws.tail).2)

/-- The whole index loop (lines 131-144) for one element: iteration `dim = 0`
prints no separator; with `maxR = 0` it immediately prints the truncation
marker, otherwise it prints the first coordinate's specifier and continues
with `idxTail`.  Returns the text between `"idx ("` and `")"` together with
the coordinate values pushed onto the argument list. -/
def idxSection (index : List Val) (ws : List Nat) (maxR : Nat) :
    String × List Val :=
  match index, maxR with
  | [], _ => ("", [])
  | _ :: _, 0 => ("... (truncated)", [])
  | v :: rest, r + 1 =>
    (getFormatSubstr v.ty false (some (ws.headD 0)) ++
       (idxTail r rest ws.tail).1,
     v :: (idxTail r rest ws.tail).2)

/-- The `"pid (<spec>, <spec>, <spec>) "` opening (lines 116-124). -/
def pidSection (pid : Val × Val × Val) : String :=
  "pid (" ++ getFormatSubstr pid.1.ty ++ ", " ++ getFormatSubstr pid.2.1.ty ++
    ", " ++ getFormatSubstr pid.2.2.ty ++ ") "

/-- The operand-disambiguation tag (lines 150-152): literal text only, no
bound argument, present only when the print op has several operands. -/
def opTag (operand nOps : Nat) : String :=
  if 1 < nOps then "(operand " ++ Nat.repr operand ++ ") " else ""

/-- One iteration of the element loop in `printTensor` (lines 104-156):
the full format string and the argument list
`pid ++ truncated-index ++ [prefix-string, element]` for one element. -/
def elemLine (pid : Val × Val × Val) (pfx : Val) (operand nOps : Nat)
    (index : List Val) (dimWidths : List Nat) (hex : Bool) (elem : Val) :
    String × List Val :=
  let idx := idxSection index dimWidths maxAllowedRank
  (pidSection pid ++ "idx (" ++ idx.1 ++ ")" ++ "%s" ++ opTag operand nOps ++
     getFormatSubstr elem.ty hex,
   [pid.1, pid.2.1, pid.2.2] ++ idx.2 ++ [pfx] ++ [elem])

/-- How one `llPrintf` call names its format string: on the first element the
text is registered (returning `formatStrValue`), later elements reuse that
cached value (lines 162-167).  Both constructors record the registered text. -/
inductive FmtRef where
  | register (s : String)
  | reuse (s : String)
deriving DecidableEq

/-- One emitted `llPrintf` call: its format-string reference and argument
list. -/
structure Emission where
  fmtRef : FmtRef
  args : List Val
deriving DecidableEq

/-- `PrintOpConversion::printTensor` (lines 85-169): one emission per element
owned by the thread; the format string is built for every element but only
registered for the first, later elements reuse the cached handle. -/
def printTensor (pfx : Val) (operand nOps : Nat) (elems : List Val)
    (pid : Val × Val × Val) (indices : List (List Val))
    (dimWidths : List Nat) (hex : Bool) : List Emission :=
  match elems.zip indices with
  | [] => []
  | p :: rest =>
    { fmtRef := FmtRef.register (elemLine pid pfx operand nOps p.2 dimWidths hex p.1).1,
      args := (elemLine pid pfx operand nOps p.2 dimWidths hex p.1).2 } ::
      rest.map (fun q =>
        { fmtRef := FmtRef.reuse (elemLine pid pfx operand nOps p.2 dimWidths hex p.1).1,
          args := (elemLine pid pfx operand nOps q.2 dimWidths hex q.1).2 })

/-- One print-op operand: `shape = some s` models a `RankedTensorType` of
shape `s` (its per-element coordinates `indices` are supplied by the external
`emitIndices` collaborator), `shape = none` models a scalar.  `elems` is the
result of `unpackLLElements`: the elements resident in this GPU thread. -/
structure Operand where
  shape : Option (List Int)
  indices : List (List Val)
  elems : List Val
deriving DecidableEq

/-- A `triton::PrintOp`: user prefix (already interned, a `%s` argument),
operands, and the hex flag. -/
structure PrintRequest where
  pfx : Val
  operands : List Operand
  hex : Bool
deriving DecidableEq

/-- One iteration of the operand loop in `matchAndRewrite` (lines 45-79):
compute `dimWidths` from the shape (ranked case) or synthesize the single
empty index (scalar case), then run `printTensor` unless the thread owns no
elements of this operand. -/
def operandEmissions (pfx : Val) (nOps : Nat) (pid : Val × Val × Val)
    (hex : Bool) (i : Nat) (o : Operand) : List Emission :=
  if o.elems.isEmpty then []
  else
    printTensor pfx i nOps o.elems pid
      (match o.shape with
        | some _ => o.indices
        | none => [[]])
      (match o.shape with
        | some shape => shape.map dimWidth
        | none => [])
      hex

/-- `PrintOpConversion::matchAndRewrite` (lines 21-83): with no operands,
a single `llPrintf` of `"pid (<spec>, <spec>, <spec>)%s"` with arguments
`(x, y, z, prefix)`; otherwise the concatenation of every operand's
emissions in operand order. -/
def matchAndRewrite (req : PrintRequest) (pid : Val × Val × Val) :
    List Emission :=
  if req.operands.length = 0 then
    [{ fmtRef := FmtRef.register
         ("pid (" ++ getFormatSubstr pid.1.ty ++ ", " ++
            getFormatSubstr pid.2.1.ty ++ ", " ++ getFormatSubstr pid.2.2.ty ++
            ")%s"),
       args := [pid.1, pid.2.1, pid.2.2, req.pfx] }]
  else
    (req.operands.enum).flatMap
      (fun p => operandEmissions req.pfx req.operands.length pid req.hex p.1 p.2)

/-! ### Specification-side helpers for stating properties of the index loop -/

/-- The list of conversion specifiers the index loop would produce for the
given coordinates: position `d` uses `hex = false` and width `dimWidths[d]`. -/
def coordSpecs : List Val → List Nat → List String
  | [], _ => []
  | v :: rest, ws =>
    getFormatSubstr v.ty false (some (ws.headD 0)) :: coordSpecs rest ws.tail

/-- Concatenation of strings, each preceded by the `", "` separator. -/
def tailStr : List String → String
  | [] => ""
  | s :: rest => ", " ++ s ++ tailStr rest

/-- Comma-separated concatenation of a list of strings. -/
def joinSep : List String → String
  | [] => ""
  | s :: rest => s ++ tailStr rest

theorem coordSpecs_length (l : List Val) (ws : List Nat) :
    (coordSpecs l ws).length = l.length := by
  induction l generalizing ws with
  | nil => rfl
  | cons v rest ih => simp [coordSpecs, ih]

theorem idxTail_noTrunc (index : List Val) :
    ∀ (ws : List Nat) (r : Nat), index.length ≤ r →
      idxTail r index ws = (tailStr (coordSpecs index ws), index) := by
  induction index with
  | nil => intro ws r _; cases r <;> rfl
  | cons v rest ih =>
    intro ws r hr
    match r with
    | 0 => simp at hr
    | r + 1 =>
      have h' : rest.length ≤ r := by simpa [Nat.succ_le_succ_iff] using hr
      simp [idxTail, ih ws.tail r h', coordSpecs, tailStr, String.append_assoc]

theorem idxTail_trunc (index : List Val) :
    ∀ (ws : List Nat) (r : Nat), r < index.length →
      idxTail r index ws =
        (tailStr (coordSpecs (index.take r) ws) ++ ", ... (truncated)",
         index.take r) := by
  induction index with
  | nil => intro ws r hr; simp at hr
  | cons v rest ih =>
    intro ws r hr
    match r with
    | 0 => simp [idxTail, tailStr, coordSpecs]
    | r + 1 =>
      have h' : r < rest.length := by simpa [Nat.succ_lt_succ_iff] using hr
      simp [idxTail, ih ws.tail r h', coordSpecs, tailStr, String.append_assoc]

theorem idxSection_noTrunc (index : List Val) (ws : List Nat) (maxR : Nat)
    (h : index.length ≤ maxR) :
    idxSection index ws maxR = (joinSep (coordSpecs index ws), index) := by
  match index, maxR with
  | [], _ => rfl
  | v :: rest, 0 => simp at h
  | v :: rest, r + 1 =>
    have h' : rest.length ≤ r := by simpa [Nat.succ_le_succ_iff] using h
    simp [idxSection, idxTail_noTrunc rest ws.tail r h', coordSpecs, joinSep]

theorem idxSection_trunc (index : List Val) (ws : List Nat) (maxR : Nat)
    (h0 : 0 < maxR) (h : maxR < index.length) :
    idxSection index ws maxR =
      (joinSep (coordSpecs (index.take maxR) ws) ++ ", ... (truncated)",
       index.take maxR) := by
  match index, maxR with
  | [], _ => simp at h
  | v :: rest, 0 => simp at h0
  | v :: rest, r + 1 =>
    have h' : r < rest.length := by simpa [Nat.succ_lt_succ_iff] using h
    simp [idxSection, idxTail_trunc rest ws.tail r h', coordSpecs, joinSep,
      String.append_assoc]

theorem idxTail_args_le (index : List Val) :
    ∀ (ws : List Nat) (r : Nat), (idxTail r index ws).2.length ≤ r := by
  induction index with
  | nil => intro ws r; cases r <;> simp [idxTail]
  | cons v rest ih =>
    intro ws r
    match r with
    | 0 => simp [idxTail]
    | r + 1 => simpa [idxTail, Nat.succ_le_succ_iff] using ih ws.tail r

theorem idxSection_args_le (index : List Val) (ws : List Nat) (maxR : Nat) :
    (idxSection index ws maxR).2.length ≤ maxR := by
  match index, maxR with
  | [], _ => simp [idxSection]
  | v :: rest, 0 => simp [idxSection]
  | v :: rest, r + 1 =>
    simpa [idxSection, Nat.succ_le_succ_iff] using idxTail_args_le rest ws.tail r

theorem elemLine_args_length (pid : Val × Val × Val) (pfx : Val)
    (operand nOps : Nat) (index : List Val) (ws : List Nat) (hex : Bool)
    (elem : Val) :
    (elemLine pid pfx operand nOps index ws hex elem).2.length ≤
      kMaxPrintfOperands := by
  have h := idxSection_args_le index ws maxAllowedRank
  simp only [elemLine, List.length_append]
  simp only [maxAllowedRank, kMaxPrintfOperands] at h ⊢
  simp only [List.length_cons, List.length_nil]
  omega

/-- Every emission of `printTensor` is the `elemLine` of some owned element,
with a format-string reference that names the first element's format string. -/
theorem printTensor_mem (pfx : Val) (operand nOps : Nat) (elems : List Val)
    (pid : Val × Val × Val) (indices : List (List Val)) (ws : List Nat)
    (hex : Bool) (em : Emission)
    (hmem : em ∈ printTensor pfx operand nOps elems pid indices ws hex) :
    ∃ q ∈ elems.zip indices,
      em.args = (elemLine pid pfx operand nOps q.2 ws hex q.1).2 ∧
      ∃ q0 ∈ elems.zip indices,
        (em.fmtRef = FmtRef.register (elemLine pid pfx operand nOps q0.2 ws hex q0.1).1 ∨
         em.fmtRef = FmtRef.reuse (elemLine pid pfx operand nOps q0.2 ws hex q0.1).1) := by
  unfold printTensor at hmem
  match hz : elems.zip indices, hmem with
  | p :: rest, hmem =>
    simp only [hz] at hmem
    rcases List.mem_cons.mp hmem with h | h
    · exact ⟨p, by simp [hz], by simp [h], p, by simp [hz], Or.inl (by simp [h])⟩
    · rcases List.mem_map.mp h with ⟨q, hq, hqe⟩
      exact ⟨q, by simp [hz, hq], by simp [← hqe], p, by simp [hz],
        Or.inr (by simp [← hqe])⟩

/-! ### Character-level facts: no `'o'` occurs outside the operand tag -/

theorem digitChar_lt16_ne_o : ∀ m < 16, Nat.digitChar m ≠ 'o' := by decide

theorem digitChar_ne_o (n : Nat) : Nat.digitChar (n % 10) ≠ 'o' :=
  digitChar_lt16_ne_o (n % 10) (by omega)

theorem toDigitsCore_ne_o (fuel : Nat) :
    ∀ (n : Nat) (ds : List Char), (∀ c ∈ ds, c ≠ 'o') →
      ∀ c ∈ Nat.toDigitsCore 10 fuel n ds, c ≠ 'o' := by
  induction fuel with
  | zero => intro n ds hds c hc; exact hds c hc
  | succ fuel ih =>
    intro n ds hds c hc
    simp only [Nat.toDigitsCore] at hc
    split at hc
    · rcases List.mem_cons.mp hc with h | h
      · exact h ▸ digitChar_ne_o _
      · exact hds c h
    · refine ih _ _ ?_ c hc
      intro c' hc'
      rcases List.mem_cons.mp hc' with h | h
      · exact h ▸ digitChar_ne_o _
      · exact hds c' h

theorem repr_ne_o (n : Nat) : ∀ c ∈ (Nat.repr n).data, c ≠ 'o' := by
  intro c hc
  have : c ∈ Nat.toDigitsCore 10 (n + 1) n [] := by
    simpa [Nat.repr, Nat.toDigits, List.asString] using hc
  exact toDigitsCore_ne_o (n + 1) n [] (by simp) c this

theorem mem_append_str {s t : String} (hs : ∀ x ∈ s.data, x ≠ 'o')
    (ht : ∀ x ∈ t.data, x ≠ 'o') : ∀ x ∈ (s ++ t).data, x ≠ 'o' := by
  intro x hx
  rw [String.data_append] at hx
  rcases List.mem_append.mp hx with h | h
  · exact hs x h
  · exact ht x h

theorem widthPfx_ne_o (w : Option Nat) : ∀ c ∈ (widthPfx w).data, c ≠ 'o' := by
  match w with
  | none => exact (by decide : ∀ c ∈ ("%" : String).data, c ≠ 'o')
  | some k =>
    exact mem_append_str (t := Nat.repr k)
      (by decide : ∀ c ∈ ("%" : String).data, c ≠ 'o') (repr_ne_o k)

theorem getFormatSubstr_ne_o (ty : CType) (hex : Bool) (w : Option Nat) :
    ∀ c ∈ (getFormatSubstr ty hex w).data, c ≠ 'o' := by
  unfold getFormatSubstr
  split
  · decide
  · split
    · refine mem_append_str (mem_append_str (mem_append_str (by decide)
        (repr_ne_o _)) ?_) (by decide)
      split <;> decide
    · match ty with
      | .ptr => exact (by decide : ∀ c ∈ ("%p" : String).data, c ≠ 'o')
      | .bf16 | .f16 | .f32 | .f64 =>
        exact mem_append_str (widthPfx_ne_o w)
          (by decide : ∀ c ∈ ("f" : String).data, c ≠ 'o')
      | .signedInt k =>
        refine mem_append_str (widthPfx_ne_o w)
          (t := if k = 64 then "lli" else "i") ?_
        split <;> decide
      | .unsignedInt k =>
        refine mem_append_str (widthPfx_ne_o w)
          (t := if k = 64 then "llu" else "u") ?_
        split <;> decide
      | .signlessInt k =>
        refine mem_append_str (widthPfx_ne_o w)
          (t := if k = 64 then "llu" else "u") ?_
        split <;> decide

theorem idxTail_ne_o (index : List Val) :
    ∀ (ws : List Nat) (r : Nat), ∀ c ∈ (idxTail r index ws).1.data, c ≠ 'o' := by
  induction index with
  | nil =>
    intro ws r
    simp only [idxTail]
    decide
  | cons v rest ih =>
    intro ws r
    match r with
    | 0 =>
      simp only [idxTail]
      decide
    | r + 1 =>
      simp only [idxTail]
      exact mem_append_str
        (mem_append_str (by decide : ∀ c ∈ (", " : String).data, c ≠ 'o')
          (getFormatSubstr_ne_o _ _ _))
        (ih ws.tail r)

theorem idxSection_ne_o (index : List Val) (ws : List Nat) (maxR : Nat) :
    ∀ c ∈ (idxSection index ws maxR).1.data, c ≠ 'o' := by
  match index, maxR with
  | [], _ =>
    simp only [idxSection]
    decide
  | v :: rest, 0 =>
    simp only [idxSection]
    decide
  | v :: rest, r + 1 =>
    simp only [idxSection]
    exact mem_append_str (getFormatSubstr_ne_o _ _ _) (idxTail_ne_o rest ws.tail r)

theorem pidSection_ne_o (pid : Val × Val × Val) :
    ∀ c ∈ (pidSection pid).data, c ≠ 'o' := by
  unfold pidSection
  refine mem_append_str (mem_append_str (mem_append_str (mem_append_str
    (mem_append_str (mem_append_str (by decide) (getFormatSubstr_ne_o _ _ _))
      (by decide)) (getFormatSubstr_ne_o _ _ _)) (by decide))
    (getFormatSubstr_ne_o _ _ _)) (by decide)

theorem elemLine_ne_o (pid : Val × Val × Val) (pfx : Val) (operand nOps : Nat)
    (index : List Val) (ws : List Nat) (hex : Bool) (elem : Val)
    (hn : ¬ 1 < nOps) :
    ∀ c ∈ (elemLine pid pfx operand nOps index ws hex elem).1.data, c ≠ 'o' := by
  show ∀ c ∈ (pidSection pid ++ "idx (" ++
      (idxSection index ws maxAllowedRank).1 ++ ")" ++ "%s" ++
      opTag operand nOps ++ getFormatSubstr elem.ty hex).data, c ≠ 'o'
  refine mem_append_str (mem_append_str (mem_append_str (mem_append_str
    (mem_append_str (mem_append_str (pidSection_ne_o pid) (by decide))
      (idxSection_ne_o index ws maxAllowedRank)) (by decide)) (by decide))
    ?_) (getFormatSubstr_ne_o _ _ _)
  simp only [opTag, if_neg hn]
  decide

/-! ### The format string depends only on the types of the bound values -/

theorem idxTail_str_congr (index : List Val) :
    ∀ (other : List Val), index.map Val.ty = other.map Val.ty →
      ∀ (r : Nat) (ws : List Nat),
        (idxTail r index ws).1 = (idxTail r other ws).1 := by
  induction index with
  | nil =>
    intro other h r ws
    match other, h with
    | [], _ => rfl
  | cons v rest ih =>
    intro other h r ws
    match other, h with
    | w :: orest, h =>
      simp only [List.map_cons, List.cons.injEq] at h
      match r with
      | 0 => rfl
      | r + 1 =>
        simp only [idxTail, h.1, ih orest h.2 r ws.tail]

theorem idxSection_str_congr (index other : List Val)
    (h : index.map Val.ty = other.map Val.ty) (ws : List Nat) (maxR : Nat) :
    (idxSection index ws maxR).1 = (idxSection other ws maxR).1 := by
  match index, other, h with
  | [], [], _ => rfl
  | v :: rest, w :: orest, h =>
    simp only [List.map_cons, List.cons.injEq] at h
    match maxR with
    | 0 => rfl
    | r + 1 =>
      simp only [idxSection, h.1, idxTail_str_congr rest orest h.2 r ws.tail]

theorem elemLine_str_congr (pid : Val × Val × Val) (pfx : Val)
    (operand nOps : Nat) (index other : List Val) (ws : List Nat) (hex : Bool)
    (e e' : Val) (hty : e.ty = e'.ty)
    (hidx : index.map Val.ty = other.map Val.ty) :
    (elemLine pid pfx operand nOps index ws hex e).1 =
      (elemLine pid pfx operand nOps other ws hex e').1 := by
  simp only [elemLine, hty, idxSection_str_congr index other hidx ws maxAllowedRank]

/-! ### Concrete inputs used by witnesses and counterexamples -/

/-- A 32-bit signless integer value (the type `llGetPid` and `emitIndices`
produce), with identity `n`. -/
def vI (n : Nat) : Val := ⟨CType.signlessInt 32, n⟩

/-- A concrete thread-identity triple. -/
def pidC : Val × Val × Val := (vI 0, vI 1, vI 2)

/-- A concrete interned prefix string (a pointer value). -/
def pfxC : Val := ⟨CType.ptr, 100⟩

/-- A zero-operand print request. -/
def reqEmpty : PrintRequest := ⟨pfxC, [], false⟩

/-- A scalar operand whose single resident element is `vI n`. -/
def scalarOp (n : Nat) : Operand := ⟨none, [], [vI n]⟩

/-- A ranked operand of which this thread owns no elements. -/
def emptyOp : Operand := ⟨some [4, 4], [], []⟩

/-- A single-operand print request. -/
def reqOne : PrintRequest := ⟨pfxC, [scalarOp 50], false⟩

/-- A two-operand print request whose first operand is resident-empty. -/
def reqTwo : PrintRequest := ⟨pfxC, [emptyOp, scalarOp 50], false⟩

/-! ### The claims -/

/-- C4: for every integer or floating type and `hex = true`, the resolver
returns `"0x%0" ++ (bitwidth/4) ++ ("ll" iff bitwidth > 32) ++ "x"`, and the
optional width argument has no effect on the result in hex mode. -/
theorem c4_hex_specifier (ty : CType) (width : Option Nat)
    (h : ty ≠ CType.ptr) :
    getFormatSubstr ty true width =
      "0x%0" ++ Nat.repr (bitWidth ty / 4) ++
        (if 32 < bitWidth ty then "ll" else "") ++ "x" ∧
    getFormatSubstr ty true width = getFormatSubstr ty true none := by
  constructor <;> simp [getFormatSubstr, h]

theorem c4_hex_specifier_witness :
    getFormatSubstr (CType.signedInt 64) true (some 7) =
      "0x%0" ++ Nat.repr (bitWidth (CType.signedInt 64) / 4) ++
        (if 32 < bitWidth (CType.signedInt 64) then "ll" else "") ++ "x" ∧
    getFormatSubstr (CType.signedInt 64) true (some 7) =
      getFormatSubstr (CType.signedInt 64) true none :=
  c4_hex_specifier (CType.signedInt 64) (some 7) (by decide)

/-- C5: with `hex = false` the resolver returns `"%"` plus the optional
decimal width plus the type's conversion letter (`f` for floats, `lli`/`i`
for signed, `llu`/`u` for unsigned or signless, by 64-bitness), and a pointer
type yields exactly `"%p"` for every hex/width combination. -/
theorem c5_decimal_specifier (width : Option Nat) (w : Nat) (hw : w < 64) :
    getFormatSubstr CType.bf16 false width = widthPfx width ++ "f" ∧
    getFormatSubstr CType.f16 false width = widthPfx width ++ "f" ∧
    getFormatSubstr CType.f32 false width = widthPfx width ++ "f" ∧
    getFormatSubstr CType.f64 false width = widthPfx width ++ "f" ∧
    getFormatSubstr (CType.signedInt 64) false width = widthPfx width ++ "lli" ∧
    getFormatSubstr (CType.signedInt w) false width = widthPfx width ++ "i" ∧
    getFormatSubstr (CType.unsignedInt 64) false width = widthPfx width ++ "llu" ∧
    getFormatSubstr (CType.unsignedInt w) false width = widthPfx width ++ "u" ∧
    getFormatSubstr (CType.signlessInt 64) false width = widthPfx width ++ "llu" ∧
    getFormatSubstr (CType.signlessInt w) false width = widthPfx width ++ "u" ∧
    getFormatSubstr CType.ptr false width = "%p" ∧
    getFormatSubstr CType.ptr true width = "%p" := by
  have hw' : w ≠ 64 := by omega
  exact ⟨by simp [getFormatSubstr], by simp [getFormatSubstr],
    by simp [getFormatSubstr], by simp [getFormatSubstr],
    by simp [getFormatSubstr], by simp [getFormatSubstr, hw'],
    by simp [getFormatSubstr], by simp [getFormatSubstr, hw'],
    by simp [getFormatSubstr], by simp [getFormatSubstr, hw'],
    by simp [getFormatSubstr], by simp [getFormatSubstr]⟩

theorem c5_decimal_specifier_witness :
    getFormatSubstr CType.bf16 false (some 5) = widthPfx (some 5) ++ "f" ∧
    getFormatSubstr CType.f16 false (some 5) = widthPfx (some 5) ++ "f" ∧
    getFormatSubstr CType.f32 false (some 5) = widthPfx (some 5) ++ "f" ∧
    getFormatSubstr CType.f64 false (some 5) = widthPfx (some 5) ++ "f" ∧
    getFormatSubstr (CType.signedInt 64) false (some 5) = widthPfx (some 5) ++ "lli" ∧
    getFormatSubstr (CType.signedInt 32) false (some 5) = widthPfx (some 5) ++ "i" ∧
    getFormatSubstr (CType.unsignedInt 64) false (some 5) = widthPfx (some 5) ++ "llu" ∧
    getFormatSubstr (CType.unsignedInt 32) false (some 5) = widthPfx (some 5) ++ "u" ∧
    getFormatSubstr (CType.signlessInt 64) false (some 5) = widthPfx (some 5) ++ "llu" ∧
    getFormatSubstr (CType.signlessInt 32) false (some 5) = widthPfx (some 5) ++ "u" ∧
    getFormatSubstr CType.ptr false (some 5) = "%p" ∧
    getFormatSubstr CType.ptr true (some 5) = "%p" :=
  c5_decimal_specifier (some 5) 32 (by decide)

/-- C6: the per-dimension width is the ceiling of the base-10 real logarithm
of the dimension size when that size is positive, and `0` otherwise; sizes
`0` and `1` both give width `0`. -/
theorem c6_dim_width (d e : Int) (hd : 0 < d) (he : e ≤ 0) :
    (dimWidth d : Int) = ⌈Real.logb 10 (d : ℝ)⌉ ∧
    dimWidth e = 0 ∧ dimWidth 0 = 0 ∧ dimWidth 1 = 0 := by
  refine ⟨?_, ?_, ?_, ?_⟩
  · rw [dimWidth, if_pos hd]
    have h1 : ((d : ℝ)) = ((d.toNat : ℕ) : ℝ) := by
      exact_mod_cast (Int.toNat_of_nonneg hd.le).symm
    have h2 : ((10 : ℝ)) = ((10 : ℕ) : ℝ) := by norm_num
    rw [h1, h2, Real.ceil_logb_natCast (Nat.cast_nonneg _), Int.clog_natCast]
  · simp [dimWidth, not_lt.mpr he]
  · simp [dimWidth]
  · simp [dimWidth, Nat.clog_one_right]

theorem c6_dim_width_witness :
    (dimWidth 4 : Int) = ⌈Real.logb 10 (((4 : Int)) : ℝ)⌉ ∧
    dimWidth (-3) = 0 ∧ dimWidth 0 = 0 ∧ dimWidth 1 = 0 :=
  c6_dim_width 4 (-3) (by decide) (by decide)

/-- C9: formatting is deterministic; equal requests and thread identities
produce byte-identical format strings and identical argument sequences, in
the same order. -/
theorem c9_deterministic (req₁ req₂ : PrintRequest) (pid₁ pid₂ : Val × Val × Val)
    (h1 : req₁ = req₂) (h2 : pid₁ = pid₂) :
    (matchAndRewrite req₁ pid₁).map Emission.fmtRef =
      (matchAndRewrite req₂ pid₂).map Emission.fmtRef ∧
    (matchAndRewrite req₁ pid₁).map Emission.args =
      (matchAndRewrite req₂ pid₂).map Emission.args := by
  subst h1; subst h2; exact ⟨rfl, rfl⟩

theorem c9_deterministic_witness :
    (matchAndRewrite reqOne pidC).map Emission.fmtRef =
      (matchAndRewrite reqOne pidC).map Emission.fmtRef ∧
    (matchAndRewrite reqOne pidC).map Emission.args =
      (matchAndRewrite reqOne pidC).map Emission.args :=
  c9_deterministic reqOne reqOne pidC pidC rfl rfl

/-- C3 counterexample: the code emits `")%s"` with no space between the
closing parenthesis and `%s` in the zero-operand format string, so the
claimed `") %s"` shape is not what is emitted. -/
theorem c3_no_operand_counterexample :
    (matchAndRewrite reqEmpty pidC).map Emission.fmtRef =
      [FmtRef.register "pid (%u, %u, %u)%s"] ∧
    "pid (%u, %u, %u)%s" ≠ "pid (%u, %u, %u) %s" := by
  constructor
  · decide
  · decide

/-- C3 (amended): a zero-operand request emits exactly one formatted call,
whose format string is the three thread-identity specifiers from the
resolver followed immediately (no space) by `%s`, with argument list
`(x, y, z, prefix)`. -/
theorem c3_no_operand (req : PrintRequest) (pid : Val × Val × Val)
    (h : req.operands = []) :
    matchAndRewrite req pid =
      [{ fmtRef := FmtRef.register
           ("pid (" ++ getFormatSubstr pid.1.ty ++ ", " ++
              getFormatSubstr pid.2.1.ty ++ ", " ++
              getFormatSubstr pid.2.2.ty ++ ")%s"),
         args := [pid.1, pid.2.1, pid.2.2, req.pfx] }] := by
  simp [matchAndRewrite, h]

theorem c3_no_operand_witness :
    matchAndRewrite reqEmpty pidC =
      [{ fmtRef := FmtRef.register
           ("pid (" ++ getFormatSubstr pidC.1.ty ++ ", " ++
              getFormatSubstr pidC.2.1.ty ++ ", " ++
              getFormatSubstr pidC.2.2.ty ++ ")%s"),
         args := [pidC.1, pidC.2.1, pidC.2.2, reqEmpty.pfx] }] :=
  c3_no_operand reqEmpty pidC rfl

/-- The argument lists emitted by `printTensor` are exactly the `elemLine`
argument lists of the owned elements, in element order. -/
theorem printTensor_map_args (pfx : Val) (operand nOps : Nat)
    (elems : List Val) (pid : Val × Val × Val) (indices : List (List Val))
    (ws : List Nat) (hex : Bool) :
    (printTensor pfx operand nOps elems pid indices ws hex).map Emission.args =
      (elems.zip indices).map
        (fun q => (elemLine pid pfx operand nOps q.2 ws hex q.1).2) := by
  unfold printTensor
  rcases hz : elems.zip indices with - | ⟨p, rest⟩
  · rfl
  · simp

/-- C1: when an operand's rank exceeds `maxAllowedRank` (27 = 32 - 3 - 2),
the format string's index section is exactly `maxAllowedRank` coordinate
specifiers followed by the literal `"... (truncated)"`, and the argument
list carries exactly the first `maxAllowedRank` coordinate values, none past
the cutoff. -/
theorem c1_truncation (pfx : Val) (operand nOps : Nat) (pid : Val × Val × Val)
    (ws : List Nat) (hex : Bool) (e : Val) (idx : List Val)
    (elems : List Val) (indices : List (List Val))
    (h : maxAllowedRank < idx.length) :
    maxAllowedRank = 27 ∧
    (elemLine pid pfx operand nOps idx ws hex e).1 =
      pidSection pid ++ "idx (" ++
        (joinSep (coordSpecs (idx.take maxAllowedRank) ws) ++
          ", ... (truncated)") ++ ")" ++ "%s" ++ opTag operand nOps ++
        getFormatSubstr e.ty hex ∧
    (coordSpecs (idx.take maxAllowedRank) ws).length = maxAllowedRank ∧
    (idx.take maxAllowedRank).length = maxAllowedRank ∧
    (elemLine pid pfx operand nOps idx ws hex e).2 =
      [pid.1, pid.2.1, pid.2.2] ++ idx.take maxAllowedRank ++ [pfx] ++ [e] ∧
    (printTensor pfx operand nOps elems pid indices ws hex).map Emission.args =
      (elems.zip indices).map
        (fun q => (elemLine pid pfx operand nOps q.2 ws hex q.1).2) := by
  have htr := idxSection_trunc idx ws maxAllowedRank (by decide) h
  refine ⟨rfl, ?_, ?_, ?_, ?_, printTensor_map_args _ _ _ _ _ _ _ _⟩
  · simp only [elemLine, htr]
  · rw [coordSpecs_length, List.length_take]
    omega
  · rw [List.length_take]
    omega
  · simp only [elemLine, htr]

theorem c1_truncation_witness :
    maxAllowedRank = 27 ∧
    (elemLine pidC pfxC 0 1 ((List.range 28).map vI) (List.replicate 28 1)
        false (vI 50)).1 =
      pidSection pidC ++ "idx (" ++
        (joinSep (coordSpecs (((List.range 28).map vI).take maxAllowedRank)
            (List.replicate 28 1)) ++ ", ... (truncated)") ++ ")" ++ "%s" ++
        opTag 0 1 ++ getFormatSubstr (vI 50).ty false ∧
    (coordSpecs (((List.range 28).map vI).take maxAllowedRank)
        (List.replicate 28 1)).length = maxAllowedRank ∧
    (((List.range 28).map vI).take maxAllowedRank).length = maxAllowedRank ∧
    (elemLine pidC pfxC 0 1 ((List.range 28).map vI) (List.replicate 28 1)
        false (vI 50)).2 =
      [pidC.1, pidC.2.1, pidC.2.2] ++
        ((List.range 28).map vI).take maxAllowedRank ++ [pfxC] ++ [vI 50] ∧
    (printTensor pfxC 0 1 [vI 50] pidC [(List.range 28).map vI]
        (List.replicate 28 1) false).map Emission.args =
      ([vI 50].zip [(List.range 28).map vI]).map
        (fun q => (elemLine pidC pfxC 0 1 q.2 (List.replicate 28 1)
          false q.1).2) :=
  c1_truncation pfxC 0 1 pidC (List.replicate 28 1) false (vI 50)
    ((List.range 28).map vI) [vI 50] [(List.range 28).map vI] (by decide)

/-- C2: no emitted formatted call of any print request carries more than the
global argument ceiling (32) of values. -/
theorem c2_arg_ceiling (req : PrintRequest) (pid : Val × Val × Val)
    (em : Emission) (hmem : em ∈ matchAndRewrite req pid) :
    em.args.length ≤ kMaxPrintfOperands ∧ kMaxPrintfOperands = 32 := by
  refine ⟨?_, rfl⟩
  unfold matchAndRewrite at hmem
  split at hmem
  · simp [List.mem_singleton.mp hmem, kMaxPrintfOperands]
  · rcases List.mem_flatMap.mp hmem with ⟨p, _, hpe⟩
    unfold operandEmissions at hpe
    split at hpe
    · simp at hpe
    · obtain ⟨q, _, harg, -⟩ := printTensor_mem _ _ _ _ _ _ _ _ _ hpe
      rw [harg]
      exact elemLine_args_length _ _ _ _ _ _ _ _

theorem c2_arg_ceiling_witness :
    (⟨FmtRef.register "pid (%u, %u, %u) idx ()%s%u",
        [vI 0, vI 1, vI 2, pfxC, vI 50]⟩ : Emission).args.length ≤
      kMaxPrintfOperands ∧ kMaxPrintfOperands = 32 :=
  c2_arg_ceiling reqOne pidC
    ⟨FmtRef.register "pid (%u, %u, %u) idx ()%s%u",
      [vI 0, vI 1, vI 2, pfxC, vI 50]⟩ (by decide)

theorem elemLine_tag_pos (pid : Val × Val × Val) (pfx : Val)
    (operand nOps : Nat) (index : List Val) (ws : List Nat) (hex : Bool)
    (e : Val) (h : 1 < nOps) :
    ("(operand " ++ Nat.repr operand ++ ") ").data <:+:
      (elemLine pid pfx operand nOps index ws hex e).1.data := by
  show ("(operand " ++ Nat.repr operand ++ ") ").data <:+:
    (pidSection pid ++ "idx (" ++ (idxSection index ws maxAllowedRank).1 ++
      ")" ++ "%s" ++ opTag operand nOps ++ getFormatSubstr e.ty hex).data
  refine ⟨(pidSection pid ++ "idx (" ++
    (idxSection index ws maxAllowedRank).1 ++ ")" ++ "%s").data,
    (getFormatSubstr e.ty hex).data, ?_⟩
  simp [String.data_append, opTag, if_pos h, List.append_assoc]

theorem elemLine_tag_neg (pid : Val × Val × Val) (pfx : Val)
    (operand nOps : Nat) (index : List Val) (ws : List Nat) (hex : Bool)
    (e : Val) (j : Nat) (h : ¬ 1 < nOps) :
    ¬ ("(operand " ++ Nat.repr j ++ ") ").data <:+:
      (elemLine pid pfx operand nOps index ws hex e).1.data := by
  intro hinf
  have ho : 'o' ∈ ("(operand " ++ Nat.repr j ++ ") ").data := by
    simp only [String.data_append, List.mem_append]
    exact Or.inl (Or.inl (by decide))
  exact elemLine_ne_o pid pfx operand nOps index ws hex e h 'o'
    (hinf.subset ho) rfl

theorem printTensor_tag (pfx : Val) (operand nOps : Nat) (elems : List Val)
    (pid : Val × Val × Val) (indices : List (List Val)) (ws : List Nat)
    (hex : Bool) (em : Emission) (s : String) (j : Nat)
    (hmem : em ∈ printTensor pfx operand nOps elems pid indices ws hex)
    (hs : em.fmtRef = FmtRef.register s ∨ em.fmtRef = FmtRef.reuse s) :
    (1 < nOps → ("(operand " ++ Nat.repr operand ++ ") ").data <:+: s.data) ∧
    (nOps = 1 → ¬ ("(operand " ++ Nat.repr j ++ ") ").data <:+: s.data) := by
  obtain ⟨-, -, -, q0, -, href⟩ := printTensor_mem _ _ _ _ _ _ _ _ _ hmem
  have hs' : s = (elemLine pid pfx operand nOps q0.2 ws hex q0.1).1 := by
    rcases hs with h | h <;> rcases href with h' | h' <;> rw [h] at h' <;>
      first
        | (injection h' with hh; exact hh)
        | injection h'
  subst hs'
  constructor
  · exact fun h1 => elemLine_tag_pos pid pfx operand nOps q0.2 ws hex q0.1 h1
  · exact fun h1 =>
      elemLine_tag_neg pid pfx operand nOps q0.2 ws hex q0.1 j (by simp [h1])

/-- C7: in a multi-operand request every format string emitted for operand
`k` contains the literal tag `"(operand k) "`, and in a single-operand
request no emitted format string contains such a tag for any index. -/
theorem c7_operand_tag (pfx : Val) (nOps : Nat) (pid : Val × Val × Val)
    (hex : Bool) (k : Nat) (o : Operand) (em : Emission) (s : String) (j : Nat)
    (hmem : em ∈ operandEmissions pfx nOps pid hex k o)
    (hs : em.fmtRef = FmtRef.register s ∨ em.fmtRef = FmtRef.reuse s) :
    (1 < nOps → ("(operand " ++ Nat.repr k ++ ") ").data <:+: s.data) ∧
    (nOps = 1 → ¬ ("(operand " ++ Nat.repr j ++ ") ").data <:+: s.data) := by
  unfold operandEmissions at hmem
  split at hmem
  · simp at hmem
  · exact printTensor_tag _ _ _ _ _ _ _ _ _ _ _ hmem hs

theorem c7_operand_tag_witness :
    ("(operand " ++ Nat.repr 1 ++ ") ").data <:+:
      ("pid (%u, %u, %u) idx ()%s(operand 1) %u" : String).data :=
  (c7_operand_tag pfxC 2 pidC false 1 (scalarOp 50)
    ⟨FmtRef.register "pid (%u, %u, %u) idx ()%s(operand 1) %u",
      [vI 0, vI 1, vI 2, pfxC, vI 50]⟩
    "pid (%u, %u, %u) idx ()%s(operand 1) %u" 0
    (by decide) (Or.inl rfl)).1 (by decide)

/-- C8: within one operand every element's format string equals the first
element's, only the first element registers the string, and every later
element is emitted with the cached handle from that first registration,
differing only in argument values. -/
theorem c8_format_cache (pid : Val × Val × Val) (pfx : Val)
    (operand nOps : Nat) (ws : List Nat) (hex : Bool) (e0 : Val)
    (idx0 : List Val) (erest : List Val) (irest : List (List Val))
    (q : Val × List Val) (hq : q ∈ erest.zip irest)
    (hty : ∀ p ∈ erest.zip irest,
      p.1.ty = e0.ty ∧ p.2.map Val.ty = idx0.map Val.ty) :
    printTensor pfx operand nOps (e0 :: erest) pid (idx0 :: irest) ws hex =
      { fmtRef := FmtRef.register
          (elemLine pid pfx operand nOps idx0 ws hex e0).1,
        args := (elemLine pid pfx operand nOps idx0 ws hex e0).2 } ::
        (erest.zip irest).map (fun p =>
          { fmtRef := FmtRef.reuse
              (elemLine pid pfx operand nOps idx0 ws hex e0).1,
            args := (elemLine pid pfx operand nOps p.2 ws hex p.1).2 }) ∧
    (elemLine pid pfx operand nOps q.2 ws hex q.1).1 =
      (elemLine pid pfx operand nOps idx0 ws hex e0).1 := by
  constructor
  · rfl
  · obtain ⟨h1, h2⟩ := hty q hq
    exact elemLine_str_congr pid pfx operand nOps q.2 idx0 ws hex q.1 e0 h1 h2

theorem c8_format_cache_witness :
    printTensor pfxC 0 1 (vI 50 :: [vI 51]) pidC
        ([vI 10, vI 11] :: [[vI 12, vI 13]]) [1, 1] false =
      { fmtRef := FmtRef.register
          (elemLine pidC pfxC 0 1 [vI 10, vI 11] [1, 1] false (vI 50)).1,
        args := (elemLine pidC pfxC 0 1 [vI 10, vI 11] [1, 1] false (vI 50)).2 } ::
        ([vI 51].zip [[vI 12, vI 13]]).map (fun p =>
          { fmtRef := FmtRef.reuse
              (elemLine pidC pfxC 0 1 [vI 10, vI 11] [1, 1] false (vI 50)).1,
            args := (elemLine pidC pfxC 0 1 p.2 [1, 1] false p.1).2 }) ∧
    (elemLine pidC pfxC 0 1 (vI 51, [vI 12, vI 13]).2 [1, 1] false
        (vI 51, [vI 12, vI 13]).1).1 =
      (elemLine pidC pfxC 0 1 [vI 10, vI 11] [1, 1] false (vI 50)).1 :=
  c8_format_cache pidC pfxC 0 1 [1, 1] false (vI 50) [vI 10, vI 11]
    [vI 51] [[vI 12, vI 13]] (vI 51, [vI 12, vI 13]) (by decide) (by decide)

/-- C10: an operand of which the thread owns no elements contributes no
emission at all — the request's output is exactly the concatenation of the
other operands' emissions, with operand indices preserved. -/
theorem c10_empty_operand_skipped (req : PrintRequest) (pid : Val × Val × Val)
    (pre post : List Operand) (o : Operand)
    (hops : req.operands = pre ++ o :: post) (helems : o.elems = []) :
    matchAndRewrite req pid =
      (pre.enum.flatMap fun p =>
        operandEmissions req.pfx req.operands.length pid req.hex p.1 p.2) ++
      ((post.enumFrom (pre.length + 1)).flatMap fun p =>
        operandEmissions req.pfx req.operands.length pid req.hex p.1 p.2) := by
  have hne : ¬ req.operands.length = 0 := by simp [hops]
  unfold matchAndRewrite
  rw [if_neg hne]
  set n := req.operands.length with hn
  rw [hops, List.enum_append, List.flatMap_append, List.enumFrom_cons,
    List.flatMap_cons]
  have hzero : operandEmissions req.pfx n pid req.hex pre.length o = [] := by
    simp [operandEmissions, helems]
  simp only [hzero, List.nil_append]

theorem c10_empty_operand_skipped_witness :
    matchAndRewrite reqTwo pidC =
      (([] : List Operand).enum.flatMap fun p =>
        operandEmissions reqTwo.pfx reqTwo.operands.length pidC reqTwo.hex
          p.1 p.2) ++
      (([scalarOp 50].enumFrom (([] : List Operand).length + 1)).flatMap
        fun p =>
          operandEmissions reqTwo.pfx reqTwo.operands.length pidC reqTwo.hex
            p.1 p.2) :=
  c10_empty_operand_skipped reqTwo pidC [] [scalarOp 50] emptyOp rfl rfl
